import Mathlib

/-!
Verification of the SVG-to-geometry core of `bevy_svg` (file `src/svg.rs`).

The development shallowly embeds the Rust code over exact rationals:
the source works on `f64`/`f32` values, but every concrete input used
below consists of small integers (and halves), on which IEEE double and
single arithmetic is exact, so the rational model agrees with the code
on those inputs, and no claim here depends on rounding behaviour.
-/

namespace BevySvg

/-- A 2D affine transform with six coefficients, representing the 3×3 matrix
`[[a, c, e], [b, d, f], [0, 0, 1]]` (the `usvg::Transform` data carried by
every tree node; coefficients are `f64` in the source, rationals here). -/
structure UTransform where
  a : ℚ
  b : ℚ
  c : ℚ
  d : ℚ
  e : ℚ
  f : ℚ
deriving DecidableEq, Repr

/-- `usvg::Transform::default()`: the identity transform (1, 0, 0, 1, 0, 0). -/
def UTransform.identity : UTransform := ⟨1, 0, 0, 1, 0, 0⟩

/-- `TransformExt::is_identity` (src/utils.rs:19-21): exact equality
with the default transform. -/
def UTransform.is_identity (t : UTransform) : Bool :=
  decide (t = UTransform.identity)

/-- `usvg::Transform::has_skew`: the off-diagonal coefficients b, c
are not both zero. -/
def UTransform.has_skew (t : UTransform) : Bool :=
  decide (t.b ≠ 0) || decide (t.c ≠ 0)

/-- Full affine 2×3 matrix multiplication (`usvg::Transform::append`,
the last `else` branch of `concat` in src/svg.rs:197; identical to the
3×3 product of the matrices `[[a,c,e],[b,d,f],[0,0,1]]`, see
`toMat3_matmul` below). -/
def matmul (t1 t2 : UTransform) : UTransform :=
  { a := t1.a * t2.a + t1.c * t2.b
    b := t1.b * t2.a + t1.d * t2.b
    c := t1.a * t2.c + t1.c * t2.d
    d := t1.b * t2.c + t1.d * t2.d
    e := t1.a * t2.e + t1.c * t2.f + t1.e
    f := t1.b * t2.e + t1.d * t2.f + t1.f }

/-- The 3×3 rational matrix denoted by a transform. -/
def toMat3 (t : UTransform) : Matrix (Fin 3) (Fin 3) ℚ :=
  !![t.a, t.c, t.e; t.b, t.d, t.f; 0, 0, 1]

/-- `concat` (src/svg.rs:178-199). The source mutates `a` field by field;
in the skew-free fast path `a.a` and `a.d` are overwritten *before* the
assignments `a.e = a.a * b.e + a.e` and `a.f = a.d * b.f + a.f` read them,
which the sequential `let` below reproduces. -/
def concat (a : UTransform) (b : UTransform) : UTransform :=
  if a.is_identity then
    b
  else if b.is_identity then
    a
  else if !a.has_skew && !b.has_skew then
    -- just scale and translate
    let a1 : UTransform :=
      { a := a.a * b.a, b := 0, c := 0, d := a.d * b.d, e := a.e, f := a.f }
    { a1 with e := a1.a * b.e + a1.e, f := a1.d * b.f + a1.f }
  else
    matmul a b

/-- A 2D point (`lyon_tessellation::math::Point`; `f32` in the source). -/
structure Point where
  x : ℚ
  y : ℚ
deriving DecidableEq, Repr

/-- `point` (src/svg.rs:405-407): build a point from two coordinates
(the source also narrows `f64` to `f32`, exact on the inputs used here). -/
def point (x y : ℚ) : Point := ⟨x, y⟩

/-- `usvg::PathSegment`: one absolute path command. -/
inductive PathSegment where
  | moveTo (x y : ℚ)
  | lineTo (x y : ℚ)
  | curveTo (x1 y1 x2 y2 x y : ℚ)
  | closePath
deriving DecidableEq, Repr

/-- `lyon_svg::path::PathEvent`: one geometry event.  `end_` is the
source's `End { last, first, close }` variant. -/
inductive PathEvent where
  | begin (at_ : Point)
  | line (frm tp : Point)
  | cubic (frm ctrl1 ctrl2 tp : Point)
  | end_ (last first : Point) (close : Bool)
deriving DecidableEq, Repr

/-- `PathConvIter` (src/svg.rs:315-321): the converter state.  The Rust
iterator over the remaining path segments is the list `iter`. -/
structure PathConvIter where
  iter : List PathSegment
  prev : Point
  first : Point
  needs_end : Bool
  deferred : Option PathEvent
deriving DecidableEq, Repr

/-- `PathConvIter::next` (src/svg.rs:325-402).  The Rust method mutates
the state and returns `Option<PathEvent>`; here it returns the emitted
event together with the updated state, `none` meaning the iterator is
exhausted. -/
def PathConvIter.next (s : PathConvIter) : Option (PathEvent × PathConvIter) :=
  match s.deferred with
  | some ev => some (ev, { s with deferred := none })
  | none =>
    match s.iter with
    | PathSegment.moveTo x y :: rest =>
        if s.needs_end then
          let last := s.prev
          let first := s.first
          let p := point x y
          some (PathEvent.end_ last first false,
            { iter := rest, prev := p, first := p, needs_end := false,
              deferred := some (PathEvent.begin p) })
        else
          some (PathEvent.begin (point x y),
            { s with iter := rest, first := point x y })
    | PathSegment.lineTo x y :: rest =>
        some (PathEvent.line s.prev (point x y),
          { s with iter := rest, prev := point x y, needs_end := true })
    | PathSegment.curveTo x1 y1 x2 y2 x y :: rest =>
        some (PathEvent.cubic s.prev (point x1 y1) (point x2 y2) (point x y),
          { s with iter := rest, prev := point x y, needs_end := true })
    | PathSegment.closePath :: rest =>
        -- the source assigns `self.prev = self.first` first and then emits
        -- `End { last: self.prev, .. }`, so `last` is the subpath start
        some (PathEvent.end_ s.first s.first true,
          { s with iter := rest, prev := s.first, needs_end := false })
    | [] =>
        if s.needs_end then
          some (PathEvent.end_ s.prev s.first false,
            { s with needs_end := false })
        else
          none

/-- Drain the iterator into a list, as `Iterator::collect` does at
src/svg.rs:142.  The fuel argument makes the recursion structural; each
pull emits at most one event and `2·|segments| + 2` pulls always reach
exhaustion (`collectEvents_eq_runConv` below proves the drain exact). -/
def collectEvents : Nat → PathConvIter → List PathEvent
  | 0, _ => []
  | fuel + 1, s =>
    match s.next with
    | none => []
    | some (ev, s') => ev :: collectEvents fuel s'

/-- `convert_path` (src/svg.rs:409-417) followed by `.collect()`
(src/svg.rs:142): the full event stream of a path's command list,
starting from `prev = first = (0,0)`, no open subpath, empty deferred
slot. -/
def convert_path (data : List PathSegment) : List PathEvent :=
  collectEvents (2 * data.length + 2) ⟨data, point 0 0, point 0 0, false, none⟩

/-- Direct denotation of draining the converter: the list of events the
iterator emits from a given `needs_end`/`prev`/`first` state with an
empty deferred slot.  Used as the induction-friendly form of
`convert_path`; `collectEvents_eq_runConv` proves it coincides with the
fuelled drain of `PathConvIter.next`. -/
def runConv (ne : Bool) (prev first : Point) : List PathSegment → List PathEvent
  | [] => if ne then [PathEvent.end_ prev first false] else []
  | PathSegment.moveTo x y :: rest =>
      if ne then
        PathEvent.end_ prev first false :: PathEvent.begin (point x y) ::
          runConv false (point x y) (point x y) rest
      else
        PathEvent.begin (point x y) :: runConv false prev (point x y) rest
  | PathSegment.lineTo x y :: rest =>
      PathEvent.line prev (point x y) :: runConv true (point x y) first rest
  | PathSegment.curveTo x1 y1 x2 y2 x y :: rest =>
      PathEvent.cubic prev (point x1 y1) (point x2 y2) (point x y) ::
        runConv true (point x y) first rest
  | PathSegment.closePath :: rest =>
      PathEvent.end_ first first true :: runConv false first first rest

/-- Recognize a `Begin` event. -/
def isBegin : PathEvent → Bool
  | PathEvent.begin _ => true
  | _ => false

/-- Recognize an `End` event. -/
def isEnd : PathEvent → Bool
  | PathEvent.end_ _ _ _ => true
  | _ => false

/-- Number of `Begin` events in a stream. -/
def beginCount (l : List PathEvent) : Nat := l.countP isBegin

/-- Number of `End` events in a stream. -/
def endCount (l : List PathEvent) : Nat := l.countP isEnd

/-- Scanner for "no two `Begin` events without an intervening `End`":
the flag records whether a `Begin` has been seen since the last `End`. -/
def noDoubleBegin : Bool → List PathEvent → Bool
  | _, [] => true
  | flag, PathEvent.begin _ :: rest => !flag && noDoubleBegin true rest
  | _, PathEvent.end_ _ _ _ :: rest => noDoubleBegin false rest
  | flag, PathEvent.line _ _ :: rest => noDoubleBegin flag rest
  | flag, PathEvent.cubic _ _ _ _ :: rest => noDoubleBegin flag rest

mutual

/-- Well-formed command sequences, outside-of-subpath state: the input
is empty or starts a subpath with `MoveTo`.  A subpath is a `MoveTo`
followed by at least one further command of the subpath
(`LineTo`/`CurveTo` repeated, optionally terminated by one `ClosePath`).
usvg guarantees this shape for the path data handed to the converter. -/
def wfOutside : List PathSegment → Bool
  | [] => true
  | PathSegment.moveTo _ _ :: rest => wfJustMoved rest
  | _ => false

/-- Well-formedness directly after a `MoveTo`: at least one more
command of the subpath must follow. -/
def wfJustMoved : List PathSegment → Bool
  | [] => false
  | PathSegment.moveTo _ _ :: _ => false
  | PathSegment.closePath :: rest => wfOutside rest
  | PathSegment.lineTo _ _ :: rest => wfOpen rest
  | PathSegment.curveTo _ _ _ _ _ _ :: rest => wfOpen rest

/-- Well-formedness with an open, nonempty subpath. -/
def wfOpen : List PathSegment → Bool
  | [] => true
  | PathSegment.moveTo _ _ :: rest => wfJustMoved rest
  | PathSegment.closePath :: rest => wfOutside rest
  | PathSegment.lineTo _ _ :: rest => wfOpen rest
  | PathSegment.curveTo _ _ _ _ _ _ :: rest => wfOpen rest

end

/-- `usvg::Paint`: a flat color (with 8-bit channels) or any other paint
kind (gradient/pattern), which the core does not resolve. -/
inductive Paint where
  | color (red green blue : Nat)
  | other
deriving DecidableEq, Repr

/-- `bevy::prelude::Color` restricted to what the core produces: straight
RGBA with 8-bit channels (`Color::rgba_u8` / `Color::rgb_u8`). -/
structure UColor where
  red : Nat
  green : Nat
  blue : Nat
  alpha : Nat
deriving DecidableEq, Repr

/-- `bevy` `Color::default()`: opaque white. -/
def colorDefault : UColor := ⟨255, 255, 255, 255⟩

/-- Modelled from the dependency `usvg::Opacity::to_u8`: an opacity in
[0,1] mapped to an 8-bit alpha channel (clamped; the exact rounding of
the dependency is irrelevant to every claim below, which never evaluates
it). -/
def opacity_to_u8 (q : ℚ) : Nat := min (⌈q * 255⌉.toNat) 255

/-- `ColorExt::to_bevy_with_alpha_u8` (src/utils.rs:38-44): flat colors
keep their RGB channels and take the given alpha; any other paint
degrades to the default color. -/
def Paint.to_bevy_with_alpha_u8 : Paint → Nat → UColor
  | Paint.color r g b, alpha => ⟨r, g, b, alpha⟩
  | Paint.other, _ => colorDefault

/-- `usvg::Fill` as used by the core: a paint and an opacity. -/
structure UFill where
  paint : Paint
  opacity : ℚ
deriving DecidableEq, Repr

/-- `usvg::LineCap` / `lyon_tessellation::LineCap` (the mapping in
src/svg.rs:426-430 is a bijection, so one type serves both). -/
inductive ULineCap where
  | butt
  | square
  | round
deriving DecidableEq, Repr

/-- `usvg::LineJoin` / `lyon_tessellation::LineJoin`
(src/svg.rs:431-435). -/
inductive ULineJoin where
  | miter
  | bevel
  | round
deriving DecidableEq, Repr

/-- `usvg::Stroke` as used by the core. -/
structure UStroke where
  paint : Paint
  opacity : ℚ
  width : ℚ
  linecap : ULineCap
  linejoin : ULineJoin
deriving DecidableEq, Repr

/-- `lyon_tessellation::StrokeOptions` as built by `convert_stroke`. -/
structure StrokeOptions where
  tolerance : ℚ
  line_width : ℚ
  line_cap : ULineCap
  line_join : ULineJoin
deriving DecidableEq, Repr

/-- `convert_stroke` (src/svg.rs:419-443): resolve the stroke color
(flat colors with the stroke opacity as alpha, anything else the default
color) and the stroke options with the hard-coded tolerance 0.01. -/
def convert_stroke (s : UStroke) : UColor × StrokeOptions :=
  let color := match s.paint with
    | Paint.color r g b => (⟨r, g, b, opacity_to_u8 s.opacity⟩ : UColor)
    | Paint.other => colorDefault
  (color, ⟨1 / 100, s.width, s.linecap, s.linejoin⟩)

/-- `DrawType` (src/svg.rs:308-312). -/
inductive DrawType where
  | fill
  | stroke (opts : StrokeOptions)
deriving DecidableEq, Repr

/-- `PathDescriptor` (src/svg.rs:300-306).  `abs_transform` is kept as
the six affine coefficients; the source stores `to_bevy()` of the same
transform, an injective repackaging into a 4×4 matrix
(src/utils.rs:10-17). -/
structure PathDescriptor where
  segments : List PathEvent
  abs_transform : UTransform
  color : UColor
  draw_type : DrawType
deriving DecidableEq, Repr

/-- `usvg::Path` as used by the core: local transform, optional fill and
stroke, and the command list. -/
structure UPath where
  transform : UTransform
  fill : Option UFill
  stroke : Option UStroke
  data : List PathSegment
deriving DecidableEq, Repr

/-- `usvg::Group`: local transform and the optional clip-path, mask and
filter reference ids the core recognizes but does not implement. -/
structure UGroup where
  transform : UTransform
  filter : Option String
  clip_path : Option String
  mask : Option String
deriving DecidableEq, Repr

/-- The parsed document tree (`usvg::Node` with its `NodeKind`):
`path`, `svg` (root), `group`, `defs` and any other node kind. -/
inductive UNode where
  | path (p : UPath)
  | svg (children : List UNode)
  | group (g : UGroup) (children : List UNode)
  | defs (children : List UNode)
  | other
deriving Repr

/-- `usvg::NodeKind::transform()`: the node's local transform (`Svg`,
`Defs` and other kinds have none, i.e. the identity). -/
def UNode.transform : UNode → UTransform
  | UNode.path p => p.transform
  | UNode.group g _ => g.transform
  | _ => UTransform.identity

/-- The node's children in the tree (paths and unknown kinds are
childless here, as produced by usvg). -/
def UNode.children : UNode → List UNode
  | UNode.svg cs => cs
  | UNode.group _ cs => cs
  | UNode.defs cs => cs
  | _ => []

mutual

/-- `render_node` (src/svg.rs:130-176).  `anc` is the value of usvg's
`node.abs_transform()`: the `append`-product of the local transforms of
the node's proper ancestors, which the recursion threads positionally.
`t` is the mutable running `transform` parameter and `descs` the mutable
output vector; both are returned updated.  A path node pushes a fill
descriptor and then a stroke descriptor, each guarded by presence of the
style, using `abs_transform` appended with the node's own transform and
never reading `t`; `Svg` recurses via `render_group`, `Group` via
`render_group_impl`, `Defs` and unknown kinds only log. -/
def render_node (anc : UTransform) (n : UNode) (t : UTransform)
    (descs : List PathDescriptor) : UTransform × List PathDescriptor :=
  match n with
  | UNode.path p =>
      let tAbs := matmul anc p.transform
      let descs1 := match p.fill with
        | some fill =>
            descs ++ [⟨convert_path p.data, tAbs,
              fill.paint.to_bevy_with_alpha_u8 (opacity_to_u8 fill.opacity),
              DrawType.fill⟩]
        | none => descs
      let descs2 := match p.stroke with
        | some st =>
            let cs := convert_stroke st
            descs1 ++ [⟨convert_path p.data, tAbs, cs.1, DrawType.stroke cs.2⟩]
        | none => descs1
      (t, descs2)
  | UNode.svg cs =>
      render_group (matmul anc UTransform.identity) cs t descs
  | UNode.group g cs =>
      render_group_impl (matmul anc g.transform) g cs t descs
  | UNode.defs _ => (t, descs)
  | UNode.other => (t, descs)
termination_by (sizeOf n, 0)

/-- `render_group` (src/svg.rs:201-208): for each child, `concat` the
child's local transform into the running transform, then render the
child; nothing is restored between siblings.  `anc` is the children's
ancestor-transform product. -/
def render_group (anc : UTransform) (children : List UNode) (t : UTransform)
    (descs : List PathDescriptor) : UTransform × List PathDescriptor :=
  match children with
  | [] => (t, descs)
  | c :: rest =>
      let t1 := concat t c.transform
      let r := render_node anc c t1 descs
      render_group anc rest r.1 r.2
termination_by (sizeOf children, 1)

/-- `render_group_impl` (src/svg.rs:210-298): renders the group's
children via `render_group`; the clip-path, mask and filter ids of `g`
are only logged (all effect code is commented out), so they do not
influence the result. -/
def render_group_impl (anc : UTransform) (_g : UGroup)
    (children : List UNode) (t : UTransform)
    (descs : List PathDescriptor) : UTransform × List PathDescriptor :=
  render_group anc children t descs
termination_by (sizeOf children, 2)

end

mutual

/-- `usvg::Node::descendants()`: the node and all its descendants in
pre-order, each paired with its `abs_transform()` value (the ancestor
product `anc`, extended by the node's own transform for its children;
see `descendants_eq` for the uniform statement). -/
def descendants (anc : UTransform) (n : UNode) : List (UTransform × UNode) :=
  (anc, n) ::
    match n with
    | UNode.svg cs => descendantsList (matmul anc UTransform.identity) cs
    | UNode.group g cs => descendantsList (matmul anc g.transform) cs
    | UNode.defs cs => descendantsList (matmul anc UTransform.identity) cs
    | _ => []
termination_by (sizeOf n, 0)

/-- Pre-order descendants of a forest, left to right. -/
def descendantsList (anc : UTransform) : List UNode → List (UTransform × UNode)
  | [] => []
  | c :: rest => descendants anc c ++ descendantsList anc rest
termination_by l => (sizeOf l, 1)

end

/-- The loop body of `SvgBuilder::build` (src/svg.rs:108-110): render
every listed node in order, threading the running transform and the
descriptor vector. -/
def renderAll : List (UTransform × UNode) → UTransform → List PathDescriptor →
    UTransform × List PathDescriptor
  | [], t, descs => (t, descs)
  | (anc, n) :: rest, t, descs =>
      let r := render_node anc n t descs
      renderAll rest r.1 r.2

/-- The descriptor list `SvgBuilder::build` accumulates
(src/svg.rs:106-110): `render_node` applied to every node of
`root.descendants()` in order.  `t0` is the initial running transform
computed from the view box (external `usvg::utils::view_box_to_transform`,
taken as a parameter). -/
def build_descriptors (t0 : UTransform) (root : UNode) : List PathDescriptor :=
  (renderAll (descendants UTransform.identity root) t0 []).2

/-- `Origin` (src/svg.rs:25-38); the default is `TopLeft`. -/
inductive Origin where
  | topLeft
  | center
deriving DecidableEq, Repr

/-- `bevy::math::Vec2` (`f32` fields, rationals here). -/
structure UVec2 where
  x : ℚ
  y : ℚ
deriving DecidableEq, Repr

/-- `bevy::math::Vec3`. -/
structure UVec3 where
  x : ℚ
  y : ℚ
  z : ℚ
deriving DecidableEq, Repr

/-- Componentwise vector addition (`Vec3 + Vec3`). -/
def UVec3.add (u v : UVec3) : UVec3 := ⟨u.x + v.x, u.y + v.y, u.z + v.z⟩

/-- The placement offset computed by `SvgBuilder::build`
(src/svg.rs:97-104): with a `Center` origin the translation is shifted
by `(-width * scale.x / 2, height * scale.y / 2, 0)`; with `TopLeft` it
is used unchanged. -/
def build_translation (origin : Origin) (translation : UVec3) (scale : UVec2)
    (width height : ℚ) : UVec3 :=
  match origin with
  | Origin.center =>
      translation.add ⟨-width * scale.x / 2, height * scale.y / 2, 0⟩
  | Origin.topLeft => translation

mutual

/-- The same tree with every group's clip-path, mask and filter
references removed (the comparison tree of the graceful-degradation
property). -/
def clearRefs : UNode → UNode
  | UNode.path p => UNode.path p
  | UNode.svg cs => UNode.svg (clearRefsList cs)
  | UNode.group g cs =>
      UNode.group ⟨g.transform, none, none, none⟩ (clearRefsList cs)
  | UNode.defs cs => UNode.defs (clearRefsList cs)
  | UNode.other => UNode.other

/-- `clearRefs` on a forest. -/
def clearRefsList : List UNode → List UNode
  | [] => []
  | c :: rest => clearRefs c :: clearRefsList rest

end


/-! ### Theorems -/

/-- `matmul` is exactly 3×3 matrix multiplication of the denoted matrices. -/
theorem toMat3_matmul (t1 t2 : UTransform) :
    toMat3 (matmul t1 t2) = toMat3 t1 * toMat3 t2 := by
  ext i j
  fin_cases i <;> fin_cases j <;>
    simp [toMat3, matmul, Matrix.mul_apply, Fin.sum_univ_three]

/-- The fuelled drain of the iterator computes `runConv` whenever the
fuel covers the remaining segment list. -/
theorem collectEvents_eq_runConv (l : List PathSegment) :
    ∀ (ne : Bool) (prev first : Point) (fuel : Nat),
      2 * l.length + 2 ≤ fuel →
      collectEvents fuel ⟨l, prev, first, ne, none⟩ = runConv ne prev first l := by
  induction l with
  | nil =>
    intro ne prev first fuel hf
    match fuel, hf with
    | f + 2, _ =>
      cases ne with
      | false => simp [collectEvents, PathConvIter.next, runConv]
      | true =>
        cases f with
        | zero => simp [collectEvents, PathConvIter.next, runConv]
        | succ f' => simp [collectEvents, PathConvIter.next, runConv]
  | cons hd tl ih =>
    intro ne prev first fuel hf
    match fuel, hf with
    | f + 1, hf =>
      have hlen : 2 * tl.length + 2 ≤ f := by
        simp [List.length_cons] at hf; omega
      cases hd with
      | moveTo x y =>
        cases ne with
        | false =>
          simp only [collectEvents, PathConvIter.next, runConv, if_neg]
          simp [ih false prev (point x y) f hlen]
        | true =>
          have hf3 : 2 * tl.length + 3 ≤ f := by
            simp [List.length_cons] at hf; omega
          match f, hf3 with
          | f' + 1, hf3 =>
            have hlen' : 2 * tl.length + 2 ≤ f' := by omega
            simp only [collectEvents, PathConvIter.next, runConv]
            simp [ih false (point x y) (point x y) f' hlen']
      | lineTo x y =>
        simp only [collectEvents, PathConvIter.next, runConv]
        simp [ih true (point x y) first f hlen]
      | curveTo x1 y1 x2 y2 x y =>
        simp only [collectEvents, PathConvIter.next, runConv]
        simp [ih true (point x y) first f hlen]
      | closePath =>
        simp only [collectEvents, PathConvIter.next, runConv]
        simp [ih false first first f hlen]

/-- `convert_path` in denotational form. -/
theorem convert_path_eq_runConv (data : List PathSegment) :
    convert_path data = runConv false (point 0 0) (point 0 0) data :=
  collectEvents_eq_runConv data false (point 0 0) (point 0 0) _ (Nat.le_refl _)

/-- Balance invariant of the converter, by one induction over the three
states of the well-formedness automaton: outside a subpath the emitted
stream is balanced; inside a subpath it owes exactly one `End`. -/
theorem runConv_balance (l : List PathSegment) :
    ∀ prev first : Point,
      (wfOutside l = true →
        beginCount (runConv false prev first l) =
          endCount (runConv false prev first l) ∧
        noDoubleBegin false (runConv false prev first l) = true) ∧
      (wfJustMoved l = true →
        endCount (runConv false prev first l) =
          beginCount (runConv false prev first l) + 1 ∧
        noDoubleBegin true (runConv false prev first l) = true) ∧
      (wfOpen l = true →
        endCount (runConv true prev first l) =
          beginCount (runConv true prev first l) + 1 ∧
        noDoubleBegin true (runConv true prev first l) = true) := by
  induction l with
  | nil =>
    intro prev first
    refine ⟨fun _ => ?_, fun h => by simp [wfJustMoved] at h, fun _ => ?_⟩
    · simp [runConv, beginCount, endCount, noDoubleBegin]
    · simp [runConv, beginCount, endCount, noDoubleBegin, isBegin, isEnd]
  | cons hd tl ih =>
    intro prev first
    cases hd with
    | moveTo x y =>
      refine ⟨fun h => ?_, fun h => by simp [wfJustMoved] at h, fun h => ?_⟩
      · simp only [wfOutside] at h
        obtain ⟨hc, hb⟩ := (ih prev (point x y)).2.1 h
        constructor
        · simp [runConv, beginCount, endCount, List.countP_cons,
            isBegin, isEnd] at hc ⊢
          omega
        · simpa [runConv, noDoubleBegin] using hb
      · simp only [wfOpen] at h
        obtain ⟨hc, hb⟩ := (ih (point x y) (point x y)).2.1 h
        constructor
        · simp [runConv, beginCount, endCount, List.countP_cons,
            isBegin, isEnd] at hc ⊢
          omega
        · simpa [runConv, noDoubleBegin] using hb
    | lineTo x y =>
      refine ⟨fun h => by simp [wfOutside] at h, fun h => ?_, fun h => ?_⟩
      · simp only [wfJustMoved] at h
        obtain ⟨hc, hb⟩ := (ih (point x y) first).2.2 h
        constructor
        · simp [runConv, beginCount, endCount, List.countP_cons,
            isBegin, isEnd] at hc ⊢
          omega
        · simpa [runConv, noDoubleBegin] using hb
      · simp only [wfOpen] at h
        obtain ⟨hc, hb⟩ := (ih (point x y) first).2.2 h
        constructor
        · simp [runConv, beginCount, endCount, List.countP_cons,
            isBegin, isEnd] at hc ⊢
          omega
        · simpa [runConv, noDoubleBegin] using hb
    | curveTo x1 y1 x2 y2 x y =>
      refine ⟨fun h => by simp [wfOutside] at h, fun h => ?_, fun h => ?_⟩
      · simp only [wfJustMoved] at h
        obtain ⟨hc, hb⟩ := (ih (point x y) first).2.2 h
        constructor
        · simp [runConv, beginCount, endCount, List.countP_cons,
            isBegin, isEnd] at hc ⊢
          omega
        · simpa [runConv, noDoubleBegin] using hb
      · simp only [wfOpen] at h
        obtain ⟨hc, hb⟩ := (ih (point x y) first).2.2 h
        constructor
        · simp [runConv, beginCount, endCount, List.countP_cons,
            isBegin, isEnd] at hc ⊢
          omega
        · simpa [runConv, noDoubleBegin] using hb
    | closePath =>
      refine ⟨fun h => by simp [wfOutside] at h, fun h => ?_, fun h => ?_⟩
      · simp only [wfJustMoved] at h
        obtain ⟨hc, hb⟩ := (ih first first).1 h
        constructor
        · simp [runConv, beginCount, endCount, List.countP_cons,
            isBegin, isEnd] at hc ⊢
          omega
        · simpa [runConv, noDoubleBegin] using hb
      · simp only [wfOpen] at h
        obtain ⟨hc, hb⟩ := (ih first first).1 h
        constructor
        · simp [runConv, beginCount, endCount, List.countP_cons,
            isBegin, isEnd] at hc ⊢
          omega
        · simpa [runConv, noDoubleBegin] using hb


/-- Uniform equation for `descendants`. -/
theorem descendants_eq (anc : UTransform) (n : UNode) :
    descendants anc n =
      (anc, n) :: descendantsList (matmul anc n.transform) n.children := by
  cases n <;> simp [descendants, descendantsList, UNode.transform, UNode.children]

mutual

/-- The output descriptors of `render_node` do not depend on the running
transform parameter. -/
theorem render_node_t_indep (n : UNode) :
    ∀ (anc t t' : UTransform) (descs : List PathDescriptor),
      (render_node anc n t descs).2 = (render_node anc n t' descs).2 := by
  intro anc t t' descs
  cases n with
  | path p => simp [render_node]
  | svg cs => simpa [render_node] using render_group_t_indep cs _ _ _ _
  | group g cs =>
      simpa [render_node, render_group_impl] using render_group_t_indep cs _ _ _ _
  | defs cs => simp [render_node]
  | other => simp [render_node]
termination_by (sizeOf n, 0)

/-- The output descriptors of `render_group` do not depend on the running
transform parameter. -/
theorem render_group_t_indep (children : List UNode) :
    ∀ (anc t t' : UTransform) (descs : List PathDescriptor),
      (render_group anc children t descs).2 = (render_group anc children t' descs).2 := by
  intro anc t t' descs
  cases children with
  | nil => simp [render_group]
  | cons c rest =>
      have h1 := render_node_t_indep c anc (concat t c.transform) (concat t' c.transform) descs
      calc (render_group anc (c :: rest) t descs).2
          = (render_group anc rest (render_node anc c (concat t c.transform) descs).1
              (render_node anc c (concat t c.transform) descs).2).2 := by
            simp [render_group]
        _ = (render_group anc rest (render_node anc c (concat t c.transform) descs).1
              (render_node anc c (concat t' c.transform) descs).2).2 := by rw [h1]
        _ = (render_group anc rest (render_node anc c (concat t' c.transform) descs).1
              (render_node anc c (concat t' c.transform) descs).2).2 :=
            render_group_t_indep rest _ _ _ _
        _ = (render_group anc (c :: rest) t' descs).2 := by simp [render_group]
termination_by (sizeOf children, 1)

end

/-- `clearRefs` preserves the node's local transform. -/
theorem clearRefs_transform (n : UNode) : (clearRefs n).transform = n.transform := by
  cases n <;> simp [clearRefs, UNode.transform]

mutual

/-- Rendering ignores the group reference ids: clearing them changes
nothing. -/
theorem render_node_clearRefs (n : UNode) :
    ∀ (anc t : UTransform) (descs : List PathDescriptor),
      render_node anc (clearRefs n) t descs = render_node anc n t descs := by
  intro anc t descs
  cases n with
  | path p => simp [clearRefs]
  | svg cs => simpa [render_node, clearRefs] using render_group_clearRefs cs _ _ _
  | group g cs =>
      simpa [render_node, render_group_impl, clearRefs] using
        render_group_clearRefs cs _ _ _
  | defs cs => simp [render_node, clearRefs]
  | other => simp [clearRefs]
termination_by (sizeOf n, 0)

/-- `render_group` after clearing the reference ids of a forest. -/
theorem render_group_clearRefs (cs : List UNode) :
    ∀ (anc t : UTransform) (descs : List PathDescriptor),
      render_group anc (clearRefsList cs) t descs = render_group anc cs t descs := by
  intro anc t descs
  cases cs with
  | nil => simp [clearRefsList]
  | cons c rest =>
      have h1 := render_node_clearRefs c anc (concat t c.transform) descs
      calc render_group anc (clearRefsList (c :: rest)) t descs
          = render_group anc (clearRefsList rest)
              (render_node anc (clearRefs c) (concat t (clearRefs c).transform) descs).1
              (render_node anc (clearRefs c) (concat t (clearRefs c).transform) descs).2 := by
            simp [clearRefsList, render_group]
        _ = render_group anc (clearRefsList rest)
              (render_node anc c (concat t c.transform) descs).1
              (render_node anc c (concat t c.transform) descs).2 := by
            rw [clearRefs_transform, h1]
        _ = render_group anc rest
              (render_node anc c (concat t c.transform) descs).1
              (render_node anc c (concat t c.transform) descs).2 :=
            render_group_clearRefs rest _ _ _
        _ = render_group anc (c :: rest) t descs := by simp [render_group]
termination_by (sizeOf cs, 1)

end

mutual

/-- `descendants` commutes with clearing the reference ids. -/
theorem descendants_clearRefs (n : UNode) :
    ∀ anc : UTransform,
      descendants anc (clearRefs n) =
        (descendants anc n).map (fun p => (p.1, clearRefs p.2)) := by
  intro anc
  cases n with
  | path p => simp [descendants, clearRefs]
  | svg cs =>
      simpa [descendants, clearRefs] using descendantsList_clearRefs cs _
  | group g cs =>
      simpa [descendants, clearRefs] using descendantsList_clearRefs cs _
  | defs cs =>
      simpa [descendants, clearRefs] using descendantsList_clearRefs cs _
  | other => simp [descendants, clearRefs]
termination_by (sizeOf n, 0)

/-- `descendantsList` commutes with clearing the reference ids. -/
theorem descendantsList_clearRefs (cs : List UNode) :
    ∀ anc : UTransform,
      descendantsList anc (clearRefsList cs) =
        (descendantsList anc cs).map (fun p => (p.1, clearRefs p.2)) := by
  intro anc
  cases cs with
  | nil => simp [clearRefsList, descendantsList]
  | cons c rest =>
      simp only [clearRefsList, descendantsList, List.map_append]
      rw [descendants_clearRefs c anc, descendantsList_clearRefs rest anc]
termination_by (sizeOf cs, 1)

end

/-- `renderAll` over a ref-cleared listing agrees with the original. -/
theorem renderAll_clearRefs (L : List (UTransform × UNode)) :
    ∀ (t : UTransform) (descs : List PathDescriptor),
      renderAll (L.map (fun p => (p.1, clearRefs p.2))) t descs =
        renderAll L t descs := by
  induction L with
  | nil => intro t descs; simp [renderAll]
  | cons hd tlL ih =>
      intro t descs
      obtain ⟨anc, n⟩ := hd
      simp only [List.map_cons, renderAll]
      rw [render_node_clearRefs n anc t descs, ih]

/-- `render_group` over path-only children: the final running transform
is the left fold of `concat` over the children's local transforms. -/
theorem render_group_paths_fst (ps : List UPath) :
    ∀ (anc t : UTransform) (descs : List PathDescriptor),
      (render_group anc (ps.map UNode.path) t descs).1 =
        ps.foldl (fun a p => concat a p.transform) t := by
  induction ps with
  | nil => intro anc t descs; simp [render_group]
  | cons p rest ih =>
      intro anc t descs
      simp only [List.map_cons, render_group, render_node, UNode.transform]
      exact ih _ _ _


/-! ### Claims -/

/-- Claim C1 (code bug).  The skew-free fast path of `concat` is claimed
to equal full affine matrix multiplication, with `e' = a_p*e_c + e_p` and
`f' = d_p*f_c + f_p`.  The code overwrites `a.a` and `a.d` before the
assignments to `a.e` and `a.f` read them, so it actually computes
`e' = (a_p*a_c)*e_c + e_p` and `f' = (d_p*d_c)*f_c + f_p`: on the
skew-free pair below the fast path yields (4,0,0,6,9,13) while full
multiplication yields (4,0,0,6,7,10).  All values involved are small
integers, on which `f64` arithmetic is exact. -/
theorem C1_concat_fastpath_diverges :
    concat ⟨2, 0, 0, 3, 5, 7⟩ ⟨2, 0, 0, 2, 1, 1⟩ = ⟨4, 0, 0, 6, 9, 13⟩ ∧
    matmul ⟨2, 0, 0, 3, 5, 7⟩ ⟨2, 0, 0, 2, 1, 1⟩ = ⟨4, 0, 0, 6, 7, 10⟩ ∧
    concat ⟨2, 0, 0, 3, 5, 7⟩ ⟨2, 0, 0, 2, 1, 1⟩ ≠
      matmul ⟨2, 0, 0, 3, 5, 7⟩ ⟨2, 0, 0, 2, 1, 1⟩ := by
  norm_num [concat, matmul, UTransform.is_identity, UTransform.has_skew,
    UTransform.identity, UTransform.mk.injEq]

/-- Claim C2, counterexample.  The claim states that for
`[MoveTo(0,0), LineTo(1,0), ClosePath]` the last emitted event is
`End(last=(1,0), first=(0,0), closed=true)`.  It is not: the source sets
`prev = first` before building the event, so `last = (0,0)`. -/
theorem C2_counterexample :
    (convert_path [PathSegment.moveTo 0 0, PathSegment.lineTo 1 0,
        PathSegment.closePath]).getLast? ≠
      some (PathEvent.end_ (point 1 0) (point 0 0) true) := by decide

/-- Claim C2, amended.  On `ClosePath` the converter emits
`End(last = f, first = f, closed = true)` where `f` is the current
subpath's start point (the source assigns `prev = first` before reading
`prev` for the event); for `[MoveTo(0,0), LineTo(1,0), ClosePath]` the
last event is `End(last=(0,0), first=(0,0), closed=true)`. -/
theorem C2_amended :
    (∀ (prev first : Point) (ne : Bool) (rest : List PathSegment),
      PathConvIter.next ⟨PathSegment.closePath :: rest, prev, first, ne, none⟩ =
        some (PathEvent.end_ first first true,
          ⟨rest, first, first, false, none⟩)) ∧
    (convert_path [PathSegment.moveTo 0 0, PathSegment.lineTo 1 0,
        PathSegment.closePath]).getLast? =
      some (PathEvent.end_ (point 0 0) (point 0 0) true) :=
  ⟨fun _ _ _ _ => rfl, by decide⟩

/-- Claim C3, counterexample.  The claim quantifies over every input
command sequence; for `[MoveTo(0,0), MoveTo(1,1)]` the converter emits
two consecutive `Begin`s and no `End`, so both the count balance and the
no-two-`Begin`s property fail. -/
theorem C3_counterexample :
    convert_path [PathSegment.moveTo 0 0, PathSegment.moveTo 1 1] =
      [PathEvent.begin (point 0 0), PathEvent.begin (point 1 1)] ∧
    ¬ (beginCount (convert_path [PathSegment.moveTo 0 0,
          PathSegment.moveTo 1 1]) =
        endCount (convert_path [PathSegment.moveTo 0 0,
          PathSegment.moveTo 1 1]) ∧
       noDoubleBegin false (convert_path [PathSegment.moveTo 0 0,
          PathSegment.moveTo 1 1]) = true) := by decide

/-- Claim C3, amended.  For every well-formed command sequence — every
`MoveTo` opens a subpath containing at least one further command before
the next `MoveTo` or the end of input, and `LineTo`/`CurveTo`/`ClosePath`
occur only inside a subpath — the emitted stream has as many `Begin`s as
`End`s and never two `Begin`s without an intervening `End`. -/
theorem C3_amended (l : List PathSegment) (h : wfOutside l = true) :
    beginCount (convert_path l) = endCount (convert_path l) ∧
    noDoubleBegin false (convert_path l) = true := by
  rw [convert_path_eq_runConv]
  exact (runConv_balance l (point 0 0) (point 0 0)).1 h

/-- Witness for `C3_amended` at `[MoveTo(0,0), LineTo(1,0), ClosePath]`. -/
theorem C3_amended_witness :
    wfOutside [PathSegment.moveTo 0 0, PathSegment.lineTo 1 0,
        PathSegment.closePath] = true ∧
    (beginCount (convert_path [PathSegment.moveTo 0 0, PathSegment.lineTo 1 0,
        PathSegment.closePath]) =
      endCount (convert_path [PathSegment.moveTo 0 0, PathSegment.lineTo 1 0,
        PathSegment.closePath]) ∧
     noDoubleBegin false (convert_path [PathSegment.moveTo 0 0,
        PathSegment.lineTo 1 0, PathSegment.closePath]) = true) :=
  ⟨by decide, C3_amended _ (by decide)⟩

/-- Claim C4, counterexample.  The claim states the running transform is
restored after each child, each child's composition starting from the
group's transform at entry.  With entry transform scale 2 and two path
children of local scales 3 and 5, `render_group` leaves the running
transform at scale 30 = 2·3·5 — not the entry transform (scale 2), and
not what composing the entry transform with only the second child's
transform gives (scale 10): the first sibling's transform leaks into the
second. -/
theorem C4_counterexample :
    (render_group UTransform.identity
        [UNode.path ⟨⟨3, 0, 0, 3, 0, 0⟩, none, none, []⟩,
         UNode.path ⟨⟨5, 0, 0, 5, 0, 0⟩, none, none, []⟩]
        ⟨2, 0, 0, 2, 0, 0⟩ []).1 = ⟨30, 0, 0, 30, 0, 0⟩ ∧
    (⟨30, 0, 0, 30, 0, 0⟩ : UTransform) ≠ ⟨2, 0, 0, 2, 0, 0⟩ ∧
    concat ⟨2, 0, 0, 2, 0, 0⟩ ⟨5, 0, 0, 5, 0, 0⟩ = ⟨10, 0, 0, 10, 0, 0⟩ ∧
    (⟨30, 0, 0, 30, 0, 0⟩ : UTransform) ≠ ⟨10, 0, 0, 10, 0, 0⟩ := by
  refine ⟨?_, by decide, ?_, by decide⟩ <;>
    norm_num [render_group, render_node, concat, UTransform.is_identity,
      UTransform.has_skew, UTransform.identity, matmul, UTransform.mk.injEq,
      UNode.transform]

/-- Claim C4, amended.  The running transform is not restored between
siblings: over path children it accumulates as the left fold of `concat`
over their local transforms, each child's composition starting from the
previous sibling's accumulated transform.  The leak is invisible in the
output: the emitted descriptors do not depend on the running transform. -/
theorem C4_amended :
    (∀ (ps : List UPath) (anc t : UTransform) (descs : List PathDescriptor),
      (render_group anc (ps.map UNode.path) t descs).1 =
        ps.foldl (fun a p => concat a p.transform) t) ∧
    (∀ (cs : List UNode) (anc t t' : UTransform) (descs : List PathDescriptor),
      (render_group anc cs t descs).2 = (render_group anc cs t' descs).2) :=
  ⟨fun ps anc t descs => render_group_paths_fst ps anc t descs,
   fun cs anc t t' descs => render_group_t_indep cs anc t t' descs⟩

/-- Claim C5 (code bug).  The claim states a path node contributes
exactly two descriptors when it has both fill and stroke.  The build
loop iterates over every node of `root.descendants()` while
`render_node` on `Svg`/`Group` nodes already renders the whole subtree,
so each path is rendered once per ancestor plus once directly: a root
with a single fill+stroke path child yields four descriptors (two fill,
two stroke), not two. -/
theorem C5_duplicated_descriptors :
    (build_descriptors UTransform.identity
      (UNode.svg [UNode.path ⟨UTransform.identity,
        some ⟨Paint.color 10 20 30, 1⟩,
        some ⟨Paint.color 40 50 60, 1, 2, ULineCap.butt, ULineJoin.miter⟩,
        [PathSegment.moveTo 0 0, PathSegment.lineTo 1 0,
         PathSegment.closePath]⟩])).length = 4 ∧
    (build_descriptors UTransform.identity
      (UNode.svg [UNode.path ⟨UTransform.identity,
        some ⟨Paint.color 10 20 30, 1⟩,
        some ⟨Paint.color 40 50 60, 1, 2, ULineCap.butt, ULineJoin.miter⟩,
        [PathSegment.moveTo 0 0, PathSegment.lineTo 1 0,
         PathSegment.closePath]⟩])).countP
      (fun d => decide (d.draw_type = DrawType.fill)) = 2 := by
  constructor <;>
    norm_num [build_descriptors, descendants_eq, descendantsList, renderAll,
      render_node, render_group, render_group_impl, concat, convert_stroke,
      UTransform.is_identity, UTransform.has_skew, UTransform.identity,
      matmul, UNode.transform, UNode.children, List.countP_cons]
  decide

/-- Claim C6.  At end of input with an open subpath the converter emits
exactly one synthesized `End(last=prev, first=first, closed=false)` and
then terminates; with no open subpath it emits nothing.  Concretely,
`[MoveTo(0,0), LineTo(1,0), LineTo(1,1)]` yields
`Begin(0,0), Line((0,0),(1,0)), Line((1,0),(1,1)),
End(last=(1,1), first=(0,0), closed=false)`. -/
theorem C6_end_of_input_synthesis :
    (∀ prev first : Point,
      PathConvIter.next ⟨[], prev, first, true, none⟩ =
        some (PathEvent.end_ prev first false, ⟨[], prev, first, false, none⟩)) ∧
    (∀ prev first : Point,
      PathConvIter.next ⟨[], prev, first, false, none⟩ = none) ∧
    convert_path [PathSegment.moveTo 0 0, PathSegment.lineTo 1 0,
        PathSegment.lineTo 1 1] =
      [PathEvent.begin (point 0 0), PathEvent.line (point 0 0) (point 1 0),
       PathEvent.line (point 1 0) (point 1 1),
       PathEvent.end_ (point 1 1) (point 0 0) false] :=
  ⟨fun _ _ => rfl, fun _ _ => rfl, by decide⟩

/-- Claim C7.  A `MoveTo` hitting an open subpath first emits a
synthesized `End(last=prev, first=first, closed=false)` and parks the new
`Begin` in the one-slot deferred buffer, which the next pull returns;
for `[MoveTo(0,0), LineTo(1,0), MoveTo(5,5), LineTo(6,5)]` exactly two
`Begin`/`End` pairs result, the first `End` is unclosed, and the second
subpath starts at (5,5). -/
theorem C7_moveTo_defers_begin :
    (∀ (x y : ℚ) (rest : List PathSegment) (prev first : Point),
      PathConvIter.next ⟨PathSegment.moveTo x y :: rest, prev, first,
          true, none⟩ =
        some (PathEvent.end_ prev first false,
          ⟨rest, point x y, point x y, false,
            some (PathEvent.begin (point x y))⟩)) ∧
    (∀ (iter : List PathSegment) (prev first : Point) (ne : Bool)
        (ev : PathEvent),
      PathConvIter.next ⟨iter, prev, first, ne, some ev⟩ =
        some (ev, ⟨iter, prev, first, ne, none⟩)) ∧
    convert_path [PathSegment.moveTo 0 0, PathSegment.lineTo 1 0,
        PathSegment.moveTo 5 5, PathSegment.lineTo 6 5] =
      [PathEvent.begin (point 0 0), PathEvent.line (point 0 0) (point 1 0),
       PathEvent.end_ (point 1 0) (point 0 0) false,
       PathEvent.begin (point 5 5), PathEvent.line (point 5 5) (point 6 5),
       PathEvent.end_ (point 6 5) (point 5 5) false] ∧
    beginCount (convert_path [PathSegment.moveTo 0 0, PathSegment.lineTo 1 0,
        PathSegment.moveTo 5 5, PathSegment.lineTo 6 5]) = 2 ∧
    endCount (convert_path [PathSegment.moveTo 0 0, PathSegment.lineTo 1 0,
        PathSegment.moveTo 5 5, PathSegment.lineTo 6 5]) = 2 :=
  ⟨fun _ _ _ _ _ => rfl, fun _ _ _ _ _ => rfl, by decide, by decide, by decide⟩

/-- Claim C8.  The placement offset is
`translation + (-width*scale.x/2, height*scale.y/2, 0)` for a `Center`
origin and `translation` unchanged for `TopLeft`; for width 100,
height 50, scale (2,2), translation (10,10,0) and `Center` it is
(-90, 60, 0). -/
theorem C8_build_translation :
    build_translation Origin.center ⟨10, 10, 0⟩ ⟨2, 2⟩ 100 50 =
      ⟨-90, 60, 0⟩ ∧
    (∀ (t : UVec3) (s : UVec2) (w h : ℚ),
      build_translation Origin.center t s w h =
        t.add ⟨-w * s.x / 2, h * s.y / 2, 0⟩) ∧
    (∀ (t : UVec3) (s : UVec2) (w h : ℚ),
      build_translation Origin.topLeft t s w h = t) := by
  refine ⟨?_, fun t s w h => rfl, fun t s w h => rfl⟩
  norm_num [build_translation, UVec3.add, UVec3.mk.injEq]

/-- Claim C9.  Clip-path, mask and filter references on groups are not
errors and do not change the output: the walk of a tree with all such
references removed produces exactly the same descriptor list. -/
theorem C9_graceful_degradation (t0 : UTransform) (root : UNode) :
    build_descriptors t0 (clearRefs root) = build_descriptors t0 root := by
  simp only [build_descriptors]
  rw [descendants_clearRefs root UTransform.identity, renderAll_clearRefs]

/-- Claim C10.  The descriptors a path node appends are independent of
the running transform threaded through the walk: rendering the same path
node with the same ancestor chain but different running transforms
appends identical descriptors (the absolute transform comes from the
ancestor product and the node's local transform only). -/
theorem C10_descriptors_ignore_running_transform
    (anc : UTransform) (p : UPath) (t t' : UTransform)
    (descs : List PathDescriptor) :
    (render_node anc (UNode.path p) t descs).2 =
      (render_node anc (UNode.path p) t' descs).2 :=
  render_node_t_indep (UNode.path p) anc t t' descs


end BevySvg
